import Mathlib

/-!
Verification of the Excel member-import pipeline of the church-management
backend (`src/backend/src/services/excelImport.ts` and the upload route in
`src/backend/src/routes/users.ts`), as a shallow embedding in Lean 4.

Modelling conventions:
* Excel cell values reaching the parser are modelled as `Option String`
  (`none` = the cell is absent / `undefined` in JS).
* JavaScript `Date` parsing (`new Date(s)` + `isNaN` check) is not
  reproduced; `validateDate` is parameterised by a predicate
  `dateOk : String → Bool` standing for "the string parses as a JS date".
  All theorems are proved for every such predicate.
* Supabase tables are plain Lean lists; generated ids are consecutive `Nat`s
  drawn from a counter (real ids are UUID strings, which are always truthy
  in JS, so the source's `if (familyId && userId)` guards are always taken).
* `.single()` returns a row exactly when the filter matched exactly one row,
  as in PostgREST.
* Writes to the `import_jobs` row are recorded as a trace of `JobUpdate`
  values (one per `.update(...)`/`.insert(...)` call), in program order;
  a field is `none` when the corresponding update call does not mention it.
  Timestamp columns (`started_at`, `completed_at`) are not modelled.
* Storage accesses never fail in the model (no network errors are injected),
  so the `catch` paths that only report storage errors are never taken.
-/

/-- Role of an imported member, `'member' | 'group_leader'` in the source. -/
inductive Role where
  | member
  | group_leader
deriving DecidableEq, Repr

/-- The `ExcelRow` interface of `excelImport.ts`: one parsed data row. -/
structure ExcelRow where
  firstName : String
  lastName : String
  email : String
  phone : String
  dateOfBirth : Option String
  gender : Option String
  bloodGroup : Option String
  address : Option String
  emergencyContactName : Option String
  emergencyContactPhone : Option String
  familyName : String
  headOfFamily : Bool
  groupMemberships : Option String
  role : Role
  notes : Option String
deriving DecidableEq, Repr

/-- The `ImportError` interface: `{ row, error, data }`. The `data` payload is
the offending `ExcelRow` for row-level errors and `none` for the route's
file-level errors (where the source stores `{}` or `{ totalRows }`). -/
structure ImportError where
  row : Nat
  error : String
  data : Option ExcelRow
deriving DecidableEq, Repr

/-- JS `String.prototype.trim` on a character list: strip whitespace from
both ends. -/
def jsTrimList (l : List Char) : List Char :=
  ((l.dropWhile Char.isWhitespace).reverse.dropWhile Char.isWhitespace).reverse

/-- JS `String.prototype.trim` (structurally recursive, so that it reduces
in the kernel; Lean's own `String.trim` does not). -/
def jsTrim (s : String) : String :=
  ⟨jsTrimList s.data⟩

/-- JS `String.prototype.toLowerCase` on one character (ASCII; the imports'
keywords and keys are ASCII). -/
def jsLowerChar (c : Char) : Char :=
  if 'A' ≤ c ∧ c ≤ 'Z' then Char.ofNat (c.toNat + 32) else c

/-- JS `String.prototype.toLowerCase`. -/
def jsToLower (s : String) : String :=
  ⟨s.data.map jsLowerChar⟩

/-- JS `String.prototype.split(sep)` for a one-character separator: every
occurrence splits, empty parts kept. -/
def splitOnChar (c : Char) : List Char → List (List Char)
  | [] => [[]]
  | x :: xs =>
      match splitOnChar c xs with
      | [] => [[]]
      | y :: ys => if x = c then [] :: y :: ys else (x :: y) :: ys

/-- A character allowed in either side of the email regex
`^[^\s@]+@[^\s@]+\.[^\s@]+$`: anything but whitespace and `@`. -/
def emailChar (c : Char) : Bool :=
  !c.isWhitespace && c ≠ '@'

/-- `validateEmail`: Boolean match of `^[^\s@]+@[^\s@]+\.[^\s@]+$`.
A string matches iff it splits as `a@b` with `a` nonempty, both halves free
of whitespace (and of further `@`s, which `splitOn` guarantees), and `b`
containing a `.` that is neither its first nor its last character. -/
def validateEmail (s : String) : Bool :=
  match splitOnChar '@' s.data with
  | [a, b] =>
      !a.isEmpty && a.all emailChar && b.all emailChar &&
        ((b.drop 1).dropLast.contains '.')
  | _ => false

/-- A character of the phone regex class `[\d\s\-\(\)]`. -/
def phoneChar (c : Char) : Bool :=
  c.isDigit || c.isWhitespace || c = '-' || c = '(' || c = ')'

/-- `validatePhone`: Boolean match of `^[\+]?[\d\s\-\(\)]{10,}$`. -/
def validatePhone (s : String) : Bool :=
  let t :=
    match s.data with
    | '+' :: rest => rest
    | l => l
  decide (10 ≤ t.length) && t.all phoneChar

/-- `validateBloodGroup`: absent is valid; present must be in the fixed
8-value list. -/
def validateBloodGroup (bloodGroup : Option String) : Bool :=
  match bloodGroup with
  | none => true
  | some b => (["A+", "B+", "AB+", "O+", "A-", "B-", "AB-", "O-"] : List String).contains b

/-- `validateDate`: absent is valid; present defers to the abstracted JS
date-parsing predicate `dateOk`. -/
def validateDate (dateOk : String → Bool) (dateStr : Option String) : Bool :=
  match dateStr with
  | none => true
  | some s => dateOk s

/-- The gender guard of `validateRow`:
`row.gender && !['Male','Female','Other'].includes(row.gender)`. -/
def genderInvalid (gender : Option String) : Bool :=
  match gender with
  | none => false
  | some g => !(["Male", "Female", "Other"] : List String).contains g

/-- `ExcelImportService.validateRow`, translated clause by clause.  It is a
pure function of the row and the row number: it takes no storage argument and
returns only the optional error, so it can neither read nor write storage. -/
def validateRow (dateOk : String → Bool) (row : ExcelRow) (rowNumber : Nat) :
    Option ImportError :=
  if row.firstName == "" then
    some ⟨rowNumber, "First name is required", some row⟩
  else if row.lastName == "" then
    some ⟨rowNumber, "Last name is required", some row⟩
  else if row.email == "" then
    some ⟨rowNumber, "Email is required", some row⟩
  else if row.phone == "" then
    some ⟨rowNumber, "Phone is required", some row⟩
  else if row.familyName == "" then
    some ⟨rowNumber, "Family name is required", some row⟩
  else if !validateEmail row.email then
    some ⟨rowNumber, "Invalid email format", some row⟩
  else if !validatePhone row.phone then
    some ⟨rowNumber, "Invalid phone number format", some row⟩
  else if !validateBloodGroup row.bloodGroup then
    some ⟨rowNumber, "Invalid blood group", some row⟩
  else if !validateDate dateOk row.dateOfBirth then
    some ⟨rowNumber, "Invalid date of birth format", some row⟩
  else if genderInvalid row.gender then
    some ⟨rowNumber, "Invalid gender. Must be Male, Female, or Other", some row⟩
  else
    none

/-- Modelled from the spec: the ordered list of checks `validateRow` is
claimed to perform, each as a (failure condition, message) pair, in the
spec's order. -/
def rowChecks (dateOk : String → Bool) (row : ExcelRow) : List (Bool × String) :=
  [ (row.firstName == "", "First name is required"),
    (row.lastName == "", "Last name is required"),
    (row.email == "", "Email is required"),
    (row.phone == "", "Phone is required"),
    (row.familyName == "", "Family name is required"),
    (!validateEmail row.email, "Invalid email format"),
    (!validatePhone row.phone, "Invalid phone number format"),
    (!validateBloodGroup row.bloodGroup, "Invalid blood group"),
    (!validateDate dateOk row.dateOfBirth, "Invalid date of birth format"),
    (genderInvalid row.gender, "Invalid gender. Must be Male, Female, or Other") ]

/-- Modelled from the spec: short-circuit on the first check whose failure
condition holds, returning its message; `none` if every check passes. -/
def firstFailure : List (Bool × String) → Option String
  | [] => none
  | (b, msg) :: rest => if b then some msg else firstFailure rest

/-- Claim C5: `validateRow` checks required-field presence, then email
format, then phone format, then blood group, then date of birth, then
gender, in that fixed order, short-circuiting on the first failure; it
returns exactly the first violated check's error (tagged with the given row
number and carrying the row), and `none` when all checks pass.  Being a
pure function of `(dateOk, row, rowNumber)`, it neither reads nor writes
any storage. -/
theorem validateRow_eq_firstFailure (dateOk : String → Bool) (row : ExcelRow)
    (rowNumber : Nat) :
    validateRow dateOk row rowNumber =
      (firstFailure (rowChecks dateOk row)).map
        (fun msg => ⟨rowNumber, msg, some row⟩) := by
  simp only [validateRow, rowChecks, firstFailure,
    apply_ite (Option.map
      (fun msg => ({ row := rowNumber, error := msg, data := some row } : ImportError))),
    Option.map_some', Option.map_none']

/-- A raw worksheet data row as `parseExcelFile` sees it: the cell values
`cells[1]` … `cells[15]` after `.toString()`, with `none` for an absent
cell.  A list of `RawRow`s stands for the data rows of the first worksheet
in order; the row at list index `j` sits at spreadsheet row `j + 2`
(row 1 is the header). -/
structure RawRow where
  c1 : Option String
  c2 : Option String
  c3 : Option String
  c4 : Option String
  c5 : Option String
  c6 : Option String
  c7 : Option String
  c8 : Option String
  c9 : Option String
  c10 : Option String
  c11 : Option String
  c12 : Option String
  c13 : Option String
  c14 : Option String
  c15 : Option String
deriving DecidableEq, Repr

/-- `cells[k]?.toString().trim() || ''` — required string columns. -/
def reqCell (c : Option String) : String :=
  jsTrim (c.getD "")

/-- `cells[k]?.toString().trim() || undefined` — optional string columns:
an absent cell, or one that trims to the empty string, becomes `none`. -/
def optCell (c : Option String) : Option String :=
  match c with
  | none => none
  | some s => if jsTrim s = "" then none else some (jsTrim s)

/-- The column-to-field mapping of `parseExcelFile` (the `rowData` object),
cell by cell. -/
def mkRow (r : RawRow) : ExcelRow where
  firstName := reqCell r.c1
  lastName := reqCell r.c2
  email := jsToLower (jsTrim (r.c3.getD ""))
  phone := reqCell r.c4
  dateOfBirth := optCell r.c5
  gender := optCell r.c6
  bloodGroup := optCell r.c7
  address := optCell r.c8
  emergencyContactName := optCell r.c9
  emergencyContactPhone := optCell r.c10
  familyName := reqCell r.c11
  headOfFamily :=
    (["yes", "y", "true", "1"] : List String).contains (jsTrim (jsToLower (r.c12.getD "")))
  groupMemberships := optCell r.c13
  role :=
    if jsToLower (jsTrim (r.c14.getD "")) = "group_leader" then Role.group_leader
    else Role.member
  notes := optCell r.c15

/-- The guard `rowData.firstName && rowData.lastName && rowData.email &&
rowData.phone && rowData.familyName` (JS truthiness of strings =
nonemptiness). -/
def hasRequired (r : ExcelRow) : Bool :=
  r.firstName != "" && r.lastName != "" && r.email != "" && r.phone != "" &&
    r.familyName != ""

/-- `ExcelImportService.parseExcelFile`: map each raw data row through the
column mapping and keep only the rows whose required fields are nonempty. -/
def parseExcelFile : List RawRow → List ExcelRow
  | [] => []
  | raw :: rest =>
      let r := mkRow raw
      if hasRequired r then r :: parseExcelFile rest else parseExcelFile rest

/-- Each optional string column of the mapping equals: trim the cell, and
turn an absent cell or one that trims to the empty string into `none`. -/
theorem optCell_eq (c : Option String) :
    optCell c = (c.map jsTrim).filter (fun s => s != "") := by
  cases c with
  | none => rfl
  | some s =>
      by_cases h : jsTrim s = "" <;> simp [optCell, Option.filter, h]

/-- Claim C6: `parseExcelFile` trims every string field, lower-cases email,
maps the head-of-family cell to `true` exactly on a case-insensitive match
against `{yes, y, true, 1}`, maps role to `group_leader` exactly on a
case-insensitive match and to `member` otherwise, and drops every row in
which a required field is empty after trimming.  Stated as: the parsed set
is the image of the column mapping filtered by required-field presence,
together with a field-by-field characterisation of the whole column
mapping — all five required string columns (trimmed, email additionally
lower-cased) and all eight optional string columns (trimmed, with an
absent or trimmed-to-empty cell becoming `none`). -/
theorem parseExcelFile_characterisation :
    (∀ raws : List RawRow,
      parseExcelFile raws = (raws.map mkRow).filter hasRequired) ∧
    (∀ r : ExcelRow,
      hasRequired r = true ↔
        r.firstName ≠ "" ∧ r.lastName ≠ "" ∧ r.email ≠ "" ∧ r.phone ≠ "" ∧
          r.familyName ≠ "") ∧
    (∀ raw : RawRow,
      (mkRow raw).firstName = jsTrim (raw.c1.getD "") ∧
      (mkRow raw).lastName = jsTrim (raw.c2.getD "") ∧
      (mkRow raw).email = jsToLower (jsTrim (raw.c3.getD "")) ∧
      (mkRow raw).phone = jsTrim (raw.c4.getD "") ∧
      (mkRow raw).familyName = jsTrim (raw.c11.getD "") ∧
      ((mkRow raw).headOfFamily = true ↔
        jsTrim (jsToLower (raw.c12.getD "")) ∈ (["yes", "y", "true", "1"] : List String)) ∧
      ((mkRow raw).role = Role.group_leader ↔
        jsToLower (jsTrim (raw.c14.getD "")) = "group_leader") ∧
      (mkRow raw).dateOfBirth = (raw.c5.map jsTrim).filter (fun s => s != "") ∧
      (mkRow raw).gender = (raw.c6.map jsTrim).filter (fun s => s != "") ∧
      (mkRow raw).bloodGroup = (raw.c7.map jsTrim).filter (fun s => s != "") ∧
      (mkRow raw).address = (raw.c8.map jsTrim).filter (fun s => s != "") ∧
      (mkRow raw).emergencyContactName =
        (raw.c9.map jsTrim).filter (fun s => s != "") ∧
      (mkRow raw).emergencyContactPhone =
        (raw.c10.map jsTrim).filter (fun s => s != "") ∧
      (mkRow raw).groupMemberships =
        (raw.c13.map jsTrim).filter (fun s => s != "") ∧
      (mkRow raw).notes = (raw.c15.map jsTrim).filter (fun s => s != "")) := by
  refine ⟨?_, ?_, ?_⟩
  · intro raws
    induction raws with
    | nil => rfl
    | cons raw rest ih =>
        simp only [parseExcelFile, List.map_cons, List.filter_cons, ih]
  · intro r
    simp [hasRequired]
    tauto
  · intro raw
    refine ⟨rfl, rfl, rfl, rfl, rfl, ?_, ?_, optCell_eq raw.c5, optCell_eq raw.c6,
      optCell_eq raw.c7, optCell_eq raw.c8, optCell_eq raw.c9,
      optCell_eq raw.c10, optCell_eq raw.c13, optCell_eq raw.c15⟩
    · simp [mkRow, List.elem_iff]
    · simp only [mkRow]
      split <;> simp_all

/-- A `user_profiles` row as touched by the import.  `email` is `Option`
because the import's insert never sets it (the source creates the profile
without an email column). -/
structure Member where
  id : Nat
  email : Option String
  firstName : String
  lastName : String
  phone : String
  dateOfBirth : Option String
  gender : Option String
  bloodGroup : Option String
  address : Option String
  emergencyContactName : Option String
  emergencyContactPhone : Option String
  role : Role
  familyId : Option Nat
deriving DecidableEq, Repr

/-- A `families` row as touched by the import. -/
structure Family where
  id : Nat
  familyName : String
  address : Option String
  phone : String
  headOfFamilyId : Option Nat
deriving DecidableEq, Repr

/-- A `groups` row (only `id, name` are selected by the import; named
`GroupRow` because `Group` is taken by Mathlib). -/
structure GroupRow where
  id : Nat
  name : String
deriving DecidableEq, Repr

/-- A `group_memberships` row as written by the import. -/
structure GroupMembership where
  groupId : Nat
  userId : Nat
  status : String
  role : String
deriving DecidableEq, Repr

/-- The four `import_jobs.status` values. -/
inductive JobStatus where
  | pending
  | processing
  | completed
  | failed
deriving DecidableEq, Repr

/-- One `.insert`/`.update` call on the `import_jobs` row: each field is
`some v` when the call sets that column to `v` and `none` when the call
does not mention it.  (Timestamp columns are not modelled.) -/
structure JobUpdate where
  status : Option JobStatus
  processed : Option Nat
  successful : Option Nat
  failed : Option Nat
  errorLog : Option (List ImportError)
  totalRecords : Option Nat
deriving DecidableEq, Repr

/-- The storage visible to the import run. -/
structure DB where
  members : List Member
  families : List Family
  groups : List GroupRow
  memberships : List GroupMembership
  nextId : Nat
deriving DecidableEq, Repr

/-- The in-memory state of one `processImport` run: the storage, the two
local accumulators (`familyMap` and `errors`), the two counters, and the
trace of `import_jobs` writes made so far. -/
structure RunState where
  db : DB
  familyMap : List (String × Nat)
  errors : List ImportError
  processedCount : Nat
  successCount : Nat
  writes : List JobUpdate
deriving DecidableEq, Repr

/-- JS `Map.prototype.set`: replace the (first and, for a map, only)
binding of the key if present, append it otherwise, keeping insertion
order. -/
def setAssoc : List (String × Nat) → String → Nat → List (String × Nat)
  | [], k, v => [(k, v)]
  | (k1, v1) :: rest, k, v =>
      if k1 = k then (k, v) :: rest else (k1, v1) :: setAssoc rest k v

/-- JS `Map.prototype.get` (with `undefined` as `none`). -/
def getAssoc : List (String × Nat) → String → Option Nat
  | [], _ => none
  | (k1, v1) :: rest, k => if k1 = k then some v1 else getAssoc rest k

/-- The group map built before the loop: every existing group's name,
lower-cased, bound to its id. -/
def mkGroupMap (gs : List GroupRow) : List (String × Nat) :=
  gs.foldl (fun m g => setAssoc m (jsToLower g.name) g.id) []

/-- The duplicate-check filter
`.or('email.eq.<row.email>,phone.eq.<row.phone>')`. -/
def userMatches (row : ExcelRow) (m : Member) : Bool :=
  m.email == some row.email || m.phone == row.phone

/-- `.single()`: a row exactly when the filtered result has exactly one. -/
def findSingle {α : Type} : List α → Option α
  | [x] => some x
  | _ => none

/-- The field updates of the existing-user branch: every column the
`.update({...})` call sets, from the row.  `id`, `email` and `family_id`
are not mentioned by that call and keep their values. -/
def updateMember (m : Member) (row : ExcelRow) : Member :=
  { m with
    firstName := row.firstName
    lastName := row.lastName
    phone := row.phone
    dateOfBirth := row.dateOfBirth
    gender := row.gender
    bloodGroup := row.bloodGroup
    address := row.address
    emergencyContactName := row.emergencyContactName
    emergencyContactPhone := row.emergencyContactPhone
    role := row.role }

/-- The new-user branch's `.insert({...})`: the same columns, no `email`,
no `family_id`, with a fresh id. -/
def newMember (id : Nat) (row : ExcelRow) : Member where
  id := id
  email := none
  firstName := row.firstName
  lastName := row.lastName
  phone := row.phone
  dateOfBirth := row.dateOfBirth
  gender := row.gender
  bloodGroup := row.bloodGroup
  address := row.address
  emergencyContactName := row.emergencyContactName
  emergencyContactPhone := row.emergencyContactPhone
  role := row.role
  familyId := none

/-- Member resolution: look for exactly one profile matching the row's
email or phone; update it in place if found, insert a fresh profile
otherwise.  Returns the resolved user id and the new storage. -/
def resolveMember (db : DB) (row : ExcelRow) : Nat × DB :=
  match findSingle (db.members.filter (userMatches row)) with
  | some m =>
      (m.id,
        { db with
            members := db.members.map fun x =>
              if x.id = m.id then updateMember x row else x })
  | none =>
      (db.nextId,
        { db with
            members := db.members ++ [newMember db.nextId row]
            nextId := db.nextId + 1 })

/-- The `ilike('family_name', row.familyName)` + `.single()` lookup:
case-insensitive equality on the family name (the name is used verbatim as
the pattern), one row exactly. -/
def findFamilyIlike (fams : List Family) (name : String) : Option Family :=
  findSingle (fams.filter (fun f => jsToLower f.familyName == jsToLower name))

/-- Family resolution: consult the run-local memo first, then the storage
(case-insensitively), then create a new family carrying this row's address
and phone; memoise the id under the lower-cased family name. -/
def resolveFamily (db : DB) (familyMap : List (String × Nat)) (row : ExcelRow) :
    Nat × DB × List (String × Nat) :=
  let key := jsToLower row.familyName
  match getAssoc familyMap key with
  | some fid => (fid, db, familyMap)
  | none =>
      match findFamilyIlike db.families row.familyName with
      | some f => (f.id, db, setAssoc familyMap key f.id)
      | none =>
          let fam : Family :=
            { id := db.nextId
              familyName := row.familyName
              address := row.address
              phone := row.phone
              headOfFamilyId := none }
          (db.nextId,
            { db with families := db.families ++ [fam], nextId := db.nextId + 1 },
            setAssoc familyMap key db.nextId)

/-- `row.groupMemberships.split(',').map(name => name.trim().toLowerCase())`. -/
def parseGroupNames (s : String) : List String :=
  (splitOnChar ',' s.data).map (fun l => jsToLower (jsTrim ⟨l⟩))

/-- The `.upsert({...}, { onConflict: 'group_id,user_id' })` call: replace
the row with the conflicting key if present, insert otherwise. -/
def upsertMembership (ms : List GroupMembership) (gid uid : Nat) :
    List GroupMembership :=
  if ms.any (fun mem => mem.groupId == gid && mem.userId == uid) then
    ms.map fun mem =>
      if mem.groupId == gid && mem.userId == uid then
        { mem with status := "pending", role := "member" }
      else mem
  else
    ms ++ [{ groupId := gid, userId := uid, status := "pending", role := "member" }]

/-- One name of the membership loop: matched names upsert, unmatched names
do nothing. -/
def groupStep (groupMap : List (String × Nat)) (uid : Nat)
    (ms : List GroupMembership) (name : String) : List GroupMembership :=
  match getAssoc groupMap name with
  | some gid => upsertMembership ms gid uid
  | none => ms

/-- The whole membership block of the loop body (skipped when the row has
no `groupMemberships` cell). -/
def applyGroups (ms : List GroupMembership) (groupMap : List (String × Nat))
    (uid : Nat) : Option String → List GroupMembership
  | none => ms
  | some s => (parseGroupNames s).foldl (groupStep groupMap uid) ms

/-- The periodic progress `.update`: only the three counters. -/
def flushWrite (p s f : Nat) : JobUpdate :=
  ⟨none, some p, some s, some f, none, none⟩

/-- The initial `.update` of `processImport`: status `processing` and
`total_records` (plus `started_at`, not modelled). -/
def startProcessingWrite (total : Nat) : JobUpdate :=
  ⟨some JobStatus.processing, none, none, none, none, some total⟩

/-- The final `.update` of `processImport`: terminal status, all three
counters, and the error log (plus `completed_at`, not modelled). -/
def terminalWrite (s : JobStatus) (p succ f : Nat) (log : List ImportError) :
    JobUpdate :=
  ⟨some s, some p, some succ, some f, some log, none⟩

/-- The success path of the loop body, for an already-validated row:
resolve the member, resolve the family, link the member to the family,
possibly set the family head, apply group memberships, bump both counters,
and flush every 10th processed row. -/
def processValidRow (groupMap : List (String × Nat)) (st : RunState)
    (row : ExcelRow) : RunState :=
  let r1 := resolveMember st.db row
  let userId := r1.1
  let db1 := r1.2
  let r2 := resolveFamily db1 st.familyMap row
  let familyId := r2.1
  let db2 := r2.2.1
  let fmap2 := r2.2.2
  let db3 :=
    { db2 with
        members := db2.members.map fun (x : Member) =>
          if x.id = userId then { x with familyId := some familyId } else x }
  let db4 :=
    if row.headOfFamily then
      { db3 with
          families := db3.families.map fun (f : Family) =>
            if f.id = familyId then { f with headOfFamilyId := some userId }
            else f }
    else db3
  let db5 :=
    { db4 with
        memberships :=
          applyGroups db4.memberships groupMap userId row.groupMemberships }
  let newProcessed := st.processedCount + 1
  let newSuccess := st.successCount + 1
  { db := db5
    familyMap := fmap2
    errors := st.errors
    processedCount := newProcessed
    successCount := newSuccess
    writes :=
      if newProcessed % 10 = 0 then
        st.writes ++ [flushWrite newProcessed newSuccess st.errors.length]
      else st.writes }

/-- The loop body of `processImport` for the row at 0-based index `idx` of
the parsed set (`rowNumber = idx + 2`).  A validation failure pushes the
error and `continue`s — skipping, as in the source, both `processedCount++`
and the periodic flush.  A valid row runs `processValidRow`. -/
def processRow (dateOk : String → Bool) (groupMap : List (String × Nat))
    (st : RunState) (idx : Nat) (row : ExcelRow) : RunState :=
  match validateRow dateOk row (idx + 2) with
  | some e => { st with errors := st.errors ++ [e] }
  | none => processValidRow groupMap st row

/-- The `for` loop of `processImport`, indices threaded explicitly. -/
def runRows (dateOk : String → Bool) (groupMap : List (String × Nat)) :
    RunState → Nat → List ExcelRow → RunState
  | st, _, [] => st
  | st, i, row :: rest =>
      runRows dateOk groupMap (processRow dateOk groupMap st i row) (i + 1) rest

/-- `ExcelImportService.processImport` up to the end of the loop: mark the
job `processing` with the total, build the group map from the existing
groups, and run the loop.  (The `failed` terminal update sits in a `catch`
reachable only through storage exceptions, which the model does not
inject.) -/
def runFinal (dateOk : String → Bool) (db0 : DB) (rows : List ExcelRow) :
    RunState :=
  runRows dateOk (mkGroupMap db0.groups)
    { db := db0
      familyMap := []
      errors := []
      processedCount := 0
      successCount := 0
      writes := [startProcessingWrite rows.length] } 0 rows

/-- The terminal `completed` update appended after the loop. -/
def processImport (dateOk : String → Bool) (db0 : DB) (rows : List ExcelRow) :
    RunState :=
  let st := runFinal dateOk db0 rows
  { st with
      writes :=
        st.writes ++
          [terminalWrite JobStatus.completed st.processedCount st.successCount
            st.errors.length st.errors] }

/-- The job-creation `.insert` of the route: status `pending` (filename,
file URL and creator are not modelled). -/
def pendingInsert : JobUpdate :=
  ⟨some JobStatus.pending, none, none, none, none, none⟩

/-- A submission-time failure `.update` of the route: status `failed` plus a
single file-level error entry (and `completed_at`, not modelled). -/
def submitFailWrite (msg : String) : JobUpdate :=
  ⟨some JobStatus.failed, none, none, none, some [⟨0, msg, none⟩], none⟩

/-- The observable outcome of `POST /api/import/excel` for one upload. -/
structure RouteResult where
  jobCreated : Bool
  runStarted : Bool
  accepted : Bool
  writes : List JobUpdate
deriving DecidableEq, Repr

/-- The `router.post('/excel')` handler after authentication and upload
succeed: create the job record in `pending`, parse the file, reject a
parsed set of 0 rows or of more than 5,000 rows by marking the created job
`failed` (without starting a run), otherwise start the background run.
(The ExcelJS parse-exception path is not modelled: `parseExcelFile` is
total here.)  `writes` is the full program-order trace of `import_jobs`
writes, the background run's included. -/
def routeExcel (dateOk : String → Bool) (db0 : DB) (raws : List RawRow) :
    RouteResult :=
  let rows := parseExcelFile raws
  if rows.length = 0 then
    { jobCreated := true
      runStarted := false
      accepted := false
      writes := [pendingInsert,
        submitFailWrite "No valid data rows found in Excel file"] }
  else if 5000 < rows.length then
    { jobCreated := true
      runStarted := false
      accepted := false
      writes := [pendingInsert,
        submitFailWrite "File contains too many records. Maximum allowed: 5,000"] }
  else
    { jobCreated := true
      runStarted := true
      accepted := true
      writes := pendingInsert :: (processImport dateOk db0 rows).writes }

/-- An empty storage (id counter at 1). -/
def emptyDB : DB :=
  { members := [], families := [], groups := [], memberships := [], nextId := 1 }

/-- A row that survives parse-time required-field filtering but fails
email-format validation. -/
def badEmailRow : ExcelRow :=
  { firstName := "John"
    lastName := "Doe"
    email := "not-an-email"
    phone := "1234567890"
    dateOfBirth := none
    gender := none
    bloodGroup := none
    address := some "123 Main St"
    emergencyContactName := none
    emergencyContactPhone := none
    familyName := "Doe Family"
    headOfFamily := false
    groupMemberships := none
    role := Role.member
    notes := none }

/-- Claim C1 (violated by the code): importing the single parsed row
`badEmailRow` ends with a terminal `completed` write persisting
`processed_records = 0`, `successful_records = 0`, `failed_records = 1` —
so `successful_records + failed_records = 1 ≠ 0 = processed_records` at
completion (and the run's only flushable state shows the same skew).  The
error row's `continue` skips the `processedCount++` that follows the
`try`/`catch`, so rows failing validation are counted in `failed_records`
but never in `processed_records`. -/
theorem processImport_counters_mismatch :
    (processImport (fun _ => true) emptyDB [badEmailRow]).writes.getLast? =
      some (terminalWrite JobStatus.completed 0 0 1
        [⟨2, "Invalid email format", some badEmailRow⟩]) ∧
    (0 : Nat) + 1 ≠ 0 := by
  exact ⟨by decide, by decide⟩

/-- A raw worksheet row whose first-name cell is empty: `parseExcelFile`
drops it from the parsed set. -/
def rawMissingFirst : RawRow :=
  { c1 := none
    c2 := some "Smith"
    c3 := some "smith@mail.com"
    c4 := some "1234567890"
    c5 := none, c6 := none, c7 := none, c8 := none, c9 := none, c10 := none
    c11 := some "Smith Family"
    c12 := none, c13 := none, c14 := none, c15 := none }

/-- A raw worksheet row with all required cells present but a malformed
email. -/
def rawBadEmail : RawRow :=
  { c1 := some "Jane"
    c2 := some "Doe"
    c3 := some "not-an-email"
    c4 := some "1234567890"
    c5 := none, c6 := none, c7 := none, c8 := none, c9 := none, c10 := none
    c11 := some "Doe Family"
    c12 := none, c13 := none, c14 := none, c15 := none }

/-- Claim C3 (violated by the code): with the worksheet
`[rawMissingFirst, rawBadEmail]` (spreadsheet rows 2 and 3; the header is
row 1), the first data row is dropped at parse time, so the bad-email row —
spreadsheet row 3, list index 1 — becomes index 0 of the parsed set and its
single error entry is tagged `row = 0 + 2 = 2`, not its spreadsheet row
number 3.  The error entry itself is the only one, and the member table is
untouched (`no Member is created or updated` holds); only the row-number
part of the claim fails, because `rowNumber = i + 2` counts positions in
the already-filtered parsed set. -/
theorem processImport_error_row_mismatch :
    parseExcelFile [rawMissingFirst, rawBadEmail] = [mkRow rawBadEmail] ∧
    (processImport (fun _ => true) emptyDB
        (parseExcelFile [rawMissingFirst, rawBadEmail])).errors =
      [⟨2, "Invalid email format", some (mkRow rawBadEmail)⟩] ∧
    (processImport (fun _ => true) emptyDB
        (parseExcelFile [rawMissingFirst, rawBadEmail])).db.members = [] ∧
    [rawMissingFirst, rawBadEmail].get? 1 = some rawBadEmail ∧
    2 ≠ 1 + 2 := by
  refine ⟨by decide, by decide, by decide, by decide, by decide⟩

/-- Claim C4, counterexample to "before any job record is created": an
upload whose parsed row set is empty is rejected, yet the handler has
already inserted the job record (the first `import_jobs` write, in
`pending`) before it parses the file and checks the row count; the created
job is then marked `failed`. -/
theorem routeExcel_reject_creates_job :
    (routeExcel (fun _ => true) emptyDB []).accepted = false ∧
    (routeExcel (fun _ => true) emptyDB []).jobCreated = true ∧
    (routeExcel (fun _ => true) emptyDB []).writes.head? = some pendingInsert := by
  exact ⟨by decide, by decide, by decide⟩

/-- Claim C4 as amended: a submission whose parsed row count is 0 or
exceeds 5,000 is rejected without starting a run, but only after the job
record has been created — the already-created job is marked `failed`; a
submission of between 1 and 5,000 parsed rows (hence exactly 5,000) is
accepted and a run is started. -/
theorem routeExcel_limits (dateOk : String → Bool) (db0 : DB)
    (raws : List RawRow) :
    (((parseExcelFile raws).length = 0 ∨ 5000 < (parseExcelFile raws).length) →
      (routeExcel dateOk db0 raws).accepted = false ∧
      (routeExcel dateOk db0 raws).runStarted = false ∧
      (routeExcel dateOk db0 raws).jobCreated = true ∧
      ∃ msg, (routeExcel dateOk db0 raws).writes =
        [pendingInsert, submitFailWrite msg]) ∧
    ((0 < (parseExcelFile raws).length ∧ (parseExcelFile raws).length ≤ 5000) →
      (routeExcel dateOk db0 raws).accepted = true ∧
      (routeExcel dateOk db0 raws).runStarted = true ∧
      (routeExcel dateOk db0 raws).jobCreated = true) := by
  constructor
  · intro h
    unfold routeExcel
    rcases h with h | h
    · simp [h]
    · have h0 : ¬ (parseExcelFile raws).length = 0 := by omega
      simp [h0, h]
  · intro ⟨h1, h2⟩
    have h0 : ¬ (parseExcelFile raws).length = 0 := by omega
    have h5 : ¬ 5000 < (parseExcelFile raws).length := by omega
    unfold routeExcel
    simp [h0, h5]

/-- Witness for `routeExcel_limits`: at the empty upload the reject branch
fires (with the job already created), and at a one-good-row upload the run
starts. -/
theorem routeExcel_limits_witness :
    ((routeExcel (fun _ => true) emptyDB []).runStarted = false ∧
      (routeExcel (fun _ => true) emptyDB []).jobCreated = true) ∧
    (routeExcel (fun _ => true) emptyDB [rawBadEmail]).runStarted = true := by
  constructor
  · have h := (routeExcel_limits (fun _ => true) emptyDB []).1 (Or.inl (by decide))
    exact ⟨h.2.1, h.2.2.1⟩
  · have h := (routeExcel_limits (fun _ => true) emptyDB [rawBadEmail]).2
      (by constructor <;> decide)
    exact h.2.1

/-- Shape of a periodic flush write: no status, no error log, no total;
all three counters set. -/
def flushShape (w : JobUpdate) : Prop :=
  w.status = none ∧ w.errorLog = none ∧ w.totalRecords = none ∧
    w.processed.isSome ∧ w.successful.isSome ∧ w.failed.isSome

theorem processRow_writes (dateOk : String → Bool) (gm : List (String × Nat))
    (st : RunState) (i : Nat) (row : ExcelRow) :
    ∃ extra, (processRow dateOk gm st i row).writes = st.writes ++ extra ∧
      ∀ w ∈ extra, flushShape w := by
  unfold processRow
  cases validateRow dateOk row (i + 2) with
  | some e => exact ⟨[], by simp, by simp⟩
  | none =>
      unfold processValidRow
      dsimp only
      split
      · refine ⟨_, rfl, ?_⟩
        intro w hw
        simp only [List.mem_singleton] at hw
        subst hw
        exact ⟨rfl, rfl, rfl, rfl, rfl, rfl⟩
      · exact ⟨[], by simp, by simp⟩

theorem runRows_writes (dateOk : String → Bool) (gm : List (String × Nat)) :
    ∀ (rows : List ExcelRow) (st : RunState) (i : Nat),
    ∃ extra, (runRows dateOk gm st i rows).writes = st.writes ++ extra ∧
      ∀ w ∈ extra, flushShape w
  | [], st, i => ⟨[], by simp [runRows], by simp⟩
  | row :: rest, st, i => by
      obtain ⟨e1, h1, hf1⟩ := processRow_writes dateOk gm st i row
      obtain ⟨e2, h2, hf2⟩ :=
        runRows_writes dateOk gm rest (processRow dateOk gm st i row) (i + 1)
      refine ⟨e1 ++ e2, ?_, ?_⟩
      · simp [runRows, h2, h1]
      · intro w hw
        rcases List.mem_append.1 hw with h | h
        · exact hf1 w h
        · exact hf2 w h

theorem runFinal_writes (dateOk : String → Bool) (db0 : DB)
    (rows : List ExcelRow) :
    ∃ mid, (runFinal dateOk db0 rows).writes =
      startProcessingWrite rows.length :: mid ∧ ∀ w ∈ mid, flushShape w := by
  obtain ⟨extra, h, hf⟩ := runRows_writes dateOk (mkGroupMap db0.groups) rows
    { db := db0, familyMap := [], errors := [], processedCount := 0,
      successCount := 0, writes := [startProcessingWrite rows.length] } 0
  exact ⟨extra, h, hf⟩

/-- Rank of a job status along the lifecycle; both terminal statuses rank
highest. -/
def statusRank : JobStatus → Nat
  | JobStatus.pending => 0
  | JobStatus.processing => 1
  | JobStatus.completed => 2
  | JobStatus.failed => 2

/-- The sequence of `status` values a trace of job writes sets, in order. -/
def jobStatusTrace (ws : List JobUpdate) : List JobStatus :=
  ws.filterMap (fun w => w.status)

/-- Claim C2: over the full program-order trace of `import_jobs` writes of
one upload (job creation, submission-time failure, start of processing,
periodic flushes, terminal update), the successive `status` values only
move forward along `pending → processing → {completed, failed}` — every
later status write has rank ≥ its predecessor's — and a write that sets a
terminal status is the last write of the trace, so a job that has reached a
terminal status is never mutated again by the pipeline. -/
theorem routeExcel_status_monotone (dateOk : String → Bool) (db0 : DB)
    (raws : List RawRow) :
    List.Chain' (fun a b => statusRank a ≤ statusRank b)
      (jobStatusTrace (routeExcel dateOk db0 raws).writes) ∧
    ∀ w ∈ (routeExcel dateOk db0 raws).writes.dropLast, ∀ st,
      w.status = some st → statusRank st < 2 := by
  unfold routeExcel
  dsimp only
  split
  · refine ⟨?_, ?_⟩
    · simp [jobStatusTrace, pendingInsert, submitFailWrite, List.filterMap,
        List.chain'_cons, statusRank]
    · intro w hw st hst
      simp only [List.dropLast, List.mem_singleton] at hw
      subst hw
      simp only [pendingInsert] at hst
      injection hst with h
      subst h
      decide
  · split
    · refine ⟨?_, ?_⟩
      · simp [jobStatusTrace, pendingInsert, submitFailWrite, List.filterMap,
          List.chain'_cons, statusRank]
      · intro w hw st hst
        simp only [List.dropLast, List.mem_singleton] at hw
        subst hw
        simp only [pendingInsert] at hst
        injection hst with h
        subst h
        decide
    · obtain ⟨mid, hmid, hflush⟩ := runFinal_writes dateOk db0 (parseExcelFile raws)
      have hmidstatus : ∀ w ∈ mid, w.status = none := fun w h => (hflush w h).1
      have hmidnil : List.filterMap (fun w => w.status) mid = [] :=
        List.filterMap_eq_nil_iff.2 hmidstatus
      have hw : (processImport dateOk db0 (parseExcelFile raws)).writes =
          (pendingInsert :: startProcessingWrite (parseExcelFile raws).length ::
            mid).tail ++
            [terminalWrite JobStatus.completed
              (runFinal dateOk db0 (parseExcelFile raws)).processedCount
              (runFinal dateOk db0 (parseExcelFile raws)).successCount
              (runFinal dateOk db0 (parseExcelFile raws)).errors.length
              (runFinal dateOk db0 (parseExcelFile raws)).errors] := by
        show (runFinal dateOk db0 (parseExcelFile raws)).writes ++ _ = _
        rw [hmid]
        rfl
      constructor
      · dsimp only
        rw [hw]
        simp only [List.tail_cons, jobStatusTrace, List.filterMap_append,
          List.filterMap_cons, pendingInsert, startProcessingWrite,
          terminalWrite, hmidnil]
        simp [List.chain'_cons, statusRank]
      · dsimp only
        rw [hw]
        intro w hwmem st hst
        rw [List.tail_cons, ← List.cons_append, List.dropLast_concat] at hwmem
        rcases List.mem_cons.1 hwmem with h | h
        · subst h
          simp only [pendingInsert] at hst
          injection hst with h'
          subst h'
          decide
        · rcases List.mem_cons.1 h with h' | h'
          · subst h'
            simp only [startProcessingWrite] at hst
            injection hst with h''
            subst h''
            decide
          · rw [hmidstatus w h'] at hst
            cases hst

/-- Claim C10: in the whole write trace of one upload, every write that
does not set `status` (exactly the periodic progress flushes) sets all
three counters and touches neither `error_log` nor `total_records`; and
every write that sets `error_log` carries a terminal status (`completed`
or `failed`) — so during a run the persisted error log keeps its
job-creation value while error entries accumulate only in memory. -/
theorem jobWrites_frame (dateOk : String → Bool) (db0 : DB)
    (raws : List RawRow) :
    ∀ w ∈ (routeExcel dateOk db0 raws).writes,
      (w.status = none →
        w.processed.isSome ∧ w.successful.isSome ∧ w.failed.isSome ∧
          w.errorLog = none ∧ w.totalRecords = none) ∧
      (w.errorLog.isSome →
        w.status = some JobStatus.completed ∨
          w.status = some JobStatus.failed) := by
  unfold routeExcel
  dsimp only
  split
  · intro w hw
    rcases List.mem_cons.1 hw with h | h
    · subst h
      exact ⟨(fun hc => nomatch hc), (fun hc => nomatch hc)⟩
    · rcases List.mem_singleton.1 h with rfl
      exact ⟨(fun hc => nomatch hc), (fun _ => Or.inr rfl)⟩
  · split
    · intro w hw
      rcases List.mem_cons.1 hw with h | h
      · subst h
        exact ⟨(fun hc => nomatch hc), (fun hc => nomatch hc)⟩
      · rcases List.mem_singleton.1 h with rfl
        exact ⟨(fun hc => nomatch hc), (fun _ => Or.inr rfl)⟩
    · obtain ⟨mid, hmid, hflush⟩ := runFinal_writes dateOk db0 (parseExcelFile raws)
      have hw : (processImport dateOk db0 (parseExcelFile raws)).writes =
          startProcessingWrite (parseExcelFile raws).length :: mid ++
            [terminalWrite JobStatus.completed
              (runFinal dateOk db0 (parseExcelFile raws)).processedCount
              (runFinal dateOk db0 (parseExcelFile raws)).successCount
              (runFinal dateOk db0 (parseExcelFile raws)).errors.length
              (runFinal dateOk db0 (parseExcelFile raws)).errors] := by
        show (runFinal dateOk db0 (parseExcelFile raws)).writes ++ _ = _
        rw [hmid]
      dsimp only
      rw [hw]
      intro w hwmem
      rcases List.mem_cons.1 hwmem with h | h
      · subst h
        exact ⟨(fun hc => nomatch hc), (fun hc => nomatch hc)⟩
      · rcases List.mem_append.1 h with h' | h'
        · rcases List.mem_cons.1 h' with h'' | h''
          · subst h''
            exact ⟨(fun hc => nomatch hc), (fun hc => nomatch hc)⟩
          · obtain ⟨h1, h2, h3, h4, h5, h6⟩ := hflush w h''
            exact ⟨fun _ => ⟨h4, h5, h6, h2, h3⟩, fun hc => by
              rw [h2] at hc
              cases hc⟩
        · rcases List.mem_singleton.1 h' with rfl
          exact ⟨(fun hc => nomatch hc), (fun _ => Or.inl rfl)⟩

/-- Witness for `jobWrites_frame`: the frame facts hold of the terminal
write of a concrete one-row run (which sits in that run's trace). -/
theorem jobWrites_frame_witness :
    (terminalWrite JobStatus.completed 0 0 1
        [⟨2, "Invalid email format", some (mkRow rawBadEmail)⟩]).status =
      some JobStatus.completed ∨
    (terminalWrite JobStatus.completed 0 0 1
        [⟨2, "Invalid email format", some (mkRow rawBadEmail)⟩]).status =
      some JobStatus.failed := by
  exact (jobWrites_frame (fun _ => true) emptyDB [rawBadEmail]
    (terminalWrite JobStatus.completed 0 0 1
      [⟨2, "Invalid email format", some (mkRow rawBadEmail)⟩]) (by decide)).2
    (by decide)

theorem getAssoc_setAssoc_self :
    ∀ (m : List (String × Nat)) (k : String) (v : Nat),
      getAssoc (setAssoc m k v) k = some v
  | [], k, v => by simp [setAssoc, getAssoc]
  | (k1, v1) :: rest, k, v => by
      by_cases h : k1 = k
      · simp [setAssoc, getAssoc, h]
      · simp [setAssoc, getAssoc, h, getAssoc_setAssoc_self rest k v]

theorem getAssoc_setAssoc_other :
    ∀ (m : List (String × Nat)) (k k' : String) (v : Nat), k ≠ k' →
      getAssoc (setAssoc m k v) k' = getAssoc m k'
  | [], k, k', v, h => by simp [setAssoc, getAssoc, h]
  | (k1, v1) :: rest, k, k', v, h => by
      by_cases h1 : k1 = k
      · subst h1
        simp [setAssoc, getAssoc, h]
      · by_cases h2 : k1 = k'
        · subst h2
          simp [setAssoc, getAssoc, h1]
        · simp [setAssoc, getAssoc, h1, h2, getAssoc_setAssoc_other rest k k' v h]

theorem resolveMember_frame (db : DB) (row : ExcelRow) :
    (resolveMember db row).2.families = db.families ∧
    (resolveMember db row).2.groups = db.groups ∧
    (resolveMember db row).2.memberships = db.memberships := by
  unfold resolveMember
  split <;> exact ⟨rfl, rfl, rfl⟩

theorem resolveFamily_families (db : DB) (m : List (String × Nat))
    (row : ExcelRow) :
    ∃ rest, (resolveFamily db m row).2.1.families = db.families ++ rest := by
  cases hkey : getAssoc m (jsToLower row.familyName) with
  | some fid => exact ⟨[], by simp [resolveFamily, hkey]⟩
  | none =>
      cases hfam : findFamilyIlike db.families row.familyName with
      | some f => exact ⟨[], by simp [resolveFamily, hkey, hfam]⟩
      | none =>
          refine ⟨[(⟨db.nextId, row.familyName, row.address, row.phone,
            none⟩ : Family)], ?_⟩
          simp [resolveFamily, hkey, hfam]

theorem resolveFamily_getAssoc (db : DB) (m : List (String × Nat))
    (row : ExcelRow) :
    getAssoc (resolveFamily db m row).2.2 (jsToLower row.familyName) =
      some (resolveFamily db m row).1 := by
  cases hkey : getAssoc m (jsToLower row.familyName) with
  | some fid => simp [resolveFamily, hkey]
  | none =>
      cases hfam : findFamilyIlike db.families row.familyName with
      | some f =>
          simpa [resolveFamily, hkey, hfam] using
            getAssoc_setAssoc_self m (jsToLower row.familyName) f.id
      | none =>
          simpa [resolveFamily, hkey, hfam] using
            getAssoc_setAssoc_self m (jsToLower row.familyName) db.nextId

theorem resolveFamily_hit (db : DB) (m : List (String × Nat)) (row : ExcelRow)
    (fid : Nat) (h : getAssoc m (jsToLower row.familyName) = some fid) :
    resolveFamily db m row = (fid, db, m) := by
  simp [resolveFamily, h]

theorem resolveFamily_preserves (db : DB) (m : List (String × Nat))
    (row : ExcelRow) (k : String) (v : Nat) (h : getAssoc m k = some v) :
    getAssoc (resolveFamily db m row).2.2 k = some v := by
  cases hkey : getAssoc m (jsToLower row.familyName) with
  | some fid => simpa [resolveFamily, hkey] using h
  | none =>
      have hk : jsToLower row.familyName ≠ k := by
        intro hc
        rw [hc, h] at hkey
        cases hkey
      cases hfam : findFamilyIlike db.families row.familyName with
      | some f =>
          simp only [resolveFamily, hkey, hfam]
          rw [getAssoc_setAssoc_other m _ k _ hk]
          exact h
      | none =>
          simp only [resolveFamily, hkey, hfam]
          rw [getAssoc_setAssoc_other m _ k _ hk]
          exact h

theorem resolveFamily_creates (db : DB) (m : List (String × Nat))
    (row : ExcelRow) (hmap : getAssoc m (jsToLower row.familyName) = none)
    (hdb : findFamilyIlike db.families row.familyName = none) :
    (resolveFamily db m row).1 = db.nextId ∧
    ({ id := db.nextId, familyName := row.familyName, address := row.address,
       phone := row.phone, headOfFamilyId := none } : Family) ∈
      (resolveFamily db m row).2.1.families := by
  simp [resolveFamily, hmap, hdb]

/-- The stable part of a `families` row: everything the import pipeline
never changes after creation (id, name, address, phone) — only
`head_of_family_id` is mutable. -/
def famCore (f : Family) : Nat × String × Option String × String :=
  (f.id, f.familyName, f.address, f.phone)

theorem famCore_updHead (fid uid : Nat) (f : Family) :
    famCore (if f.id = fid then { f with headOfFamilyId := some uid } else f) =
      famCore f := by
  by_cases h : f.id = fid <;> simp [famCore, h]

theorem processRow_familyMap_preserves (dateOk : String → Bool)
    (gm : List (String × Nat)) (st : RunState) (i : Nat) (row : ExcelRow)
    (k : String) (v : Nat) (h : getAssoc st.familyMap k = some v) :
    getAssoc (processRow dateOk gm st i row).familyMap k = some v := by
  unfold processRow
  cases validateRow dateOk row (i + 2) with
  | some e => exact h
  | none =>
      unfold processValidRow
      dsimp only
      exact resolveFamily_preserves _ _ _ _ _ h

theorem processRow_famCore (dateOk : String → Bool) (gm : List (String × Nat))
    (st : RunState) (i : Nat) (row : ExcelRow) :
    ∃ rest, (processRow dateOk gm st i row).db.families.map famCore =
      st.db.families.map famCore ++ rest := by
  unfold processRow
  cases validateRow dateOk row (i + 2) with
  | some e => exact ⟨[], by simp⟩
  | none =>
      unfold processValidRow
      dsimp only
      obtain ⟨rest, hre⟩ :=
        resolveFamily_families (resolveMember st.db row).2 st.familyMap row
      rw [(resolveMember_frame st.db row).1] at hre
      have hg : (famCore ∘ fun (f : Family) =>
          if f.id = (resolveFamily (resolveMember st.db row).2 st.familyMap
              row).1 then
            { f with headOfFamilyId := some (resolveMember st.db row).1 }
          else f) = famCore :=
        funext fun f => famCore_updHead _ _ f
      split
      · refine ⟨rest.map famCore, ?_⟩
        rw [List.map_map, hg, hre, List.map_append]
      · refine ⟨rest.map famCore, ?_⟩
        rw [hre, List.map_append]

/-- Processing a further batch of rows (with their loop indices) from an
arbitrary mid-run state. -/
def applySteps (dateOk : String → Bool) (gm : List (String × Nat))
    (st : RunState) (steps : List (Nat × ExcelRow)) : RunState :=
  steps.foldl (fun s p => processRow dateOk gm s p.1 p.2) st

theorem applySteps_familyMap (dateOk : String → Bool)
    (gm : List (String × Nat)) :
    ∀ (steps : List (Nat × ExcelRow)) (st : RunState) (k : String) (v : Nat),
      getAssoc st.familyMap k = some v →
      getAssoc (applySteps dateOk gm st steps).familyMap k = some v
  | [], _, _, _, h => h
  | p :: rest, st, k, v, h =>
      applySteps_familyMap dateOk gm rest _ k v
        (processRow_familyMap_preserves dateOk gm st p.1 p.2 k v h)

theorem applySteps_famCore (dateOk : String → Bool)
    (gm : List (String × Nat)) :
    ∀ (steps : List (Nat × ExcelRow)) (st : RunState),
      ∃ rest, (applySteps dateOk gm st steps).db.families.map famCore =
        st.db.families.map famCore ++ rest
  | [], st => ⟨[], by simp [applySteps]⟩
  | p :: rest, st => by
      obtain ⟨r1, h1⟩ := processRow_famCore dateOk gm st p.1 p.2
      obtain ⟨r2, h2⟩ :=
        applySteps_famCore dateOk gm rest (processRow dateOk gm st p.1 p.2)
      exact ⟨r1 ++ r2, by
        show (applySteps dateOk gm _ rest).db.families.map famCore = _
        rw [h2, h1, List.append_assoc]⟩

/-- Claim C7: within one run, family resolution is consistent and
first-writer-wins.  (1) Resolving a row records (or finds) the binding of
the lower-cased family name to the resolved id in the run's memo;
(2) a resolution that finds the binding returns exactly the memoised id and
changes nothing — so any two rows of the run whose family names are equal
case-insensitively resolve to the same Family id; (3) memo bindings survive
every later processed row; (4) when the family is newly created it carries
the resolving (first) row's address and phone; and (5) later rows never
change the id, name, address or phone of any existing family (only
`head_of_family_id` may change), so the created family keeps the first
row's address and phone for the rest of the run. -/
theorem resolveFamily_consistent :
    (∀ (db : DB) (m : List (String × Nat)) (row : ExcelRow),
      getAssoc (resolveFamily db m row).2.2 (jsToLower row.familyName) =
        some (resolveFamily db m row).1) ∧
    (∀ (db : DB) (m : List (String × Nat)) (row : ExcelRow) (fid : Nat),
      getAssoc m (jsToLower row.familyName) = some fid →
      resolveFamily db m row = (fid, db, m)) ∧
    (∀ (dateOk : String → Bool) (gm : List (String × Nat)) (st : RunState)
      (steps : List (Nat × ExcelRow)) (k : String) (v : Nat),
      getAssoc st.familyMap k = some v →
      getAssoc (applySteps dateOk gm st steps).familyMap k = some v) ∧
    (∀ (db : DB) (m : List (String × Nat)) (row : ExcelRow),
      getAssoc m (jsToLower row.familyName) = none →
      findFamilyIlike db.families row.familyName = none →
      (resolveFamily db m row).1 = db.nextId ∧
      ({ id := db.nextId, familyName := row.familyName,
         address := row.address, phone := row.phone,
         headOfFamilyId := none } : Family) ∈
        (resolveFamily db m row).2.1.families) ∧
    (∀ (dateOk : String → Bool) (gm : List (String × Nat)) (st : RunState)
      (steps : List (Nat × ExcelRow)),
      ∃ rest, (applySteps dateOk gm st steps).db.families.map famCore =
        st.db.families.map famCore ++ rest) :=
  ⟨resolveFamily_getAssoc, resolveFamily_hit,
    (fun dateOk gm st steps k v h =>
      applySteps_familyMap dateOk gm steps st k v h),
    resolveFamily_creates,
    (fun dateOk gm st steps => applySteps_famCore dateOk gm steps st)⟩

/-- A valid row of the "Doe Family" family, for concrete witnesses. -/
def doeRow : ExcelRow :=
  { firstName := "John"
    lastName := "Doe"
    email := "john@mail.com"
    phone := "1234567890"
    dateOfBirth := none
    gender := none
    bloodGroup := none
    address := some "123 Main St"
    emergencyContactName := none
    emergencyContactPhone := none
    familyName := "Doe Family"
    headOfFamily := true
    groupMemberships := some "Choir, Youth Group"
    role := Role.member
    notes := none }

/-- The same family name in different case. -/
def doeRowLower : ExcelRow :=
  { doeRow with
      firstName := "Jane"
      email := "jane@mail.com"
      phone := "0987654321"
      familyName := "doe family"
      headOfFamily := false }

/-- Witness for `resolveFamily_consistent`: a memo hit with the
differently-cased name returns the memoised id unchanged, and a fresh
resolution creates the family from the row's own address and phone. -/
theorem resolveFamily_consistent_witness :
    resolveFamily emptyDB [("doe family", 7)] doeRowLower =
      (7, emptyDB, [("doe family", 7)]) ∧
    ((resolveFamily emptyDB [] doeRow).1 = 1 ∧
      ({ id := 1, familyName := "Doe Family", address := some "123 Main St",
         phone := "1234567890", headOfFamilyId := none } : Family) ∈
        (resolveFamily emptyDB [] doeRow).2.1.families) := by
  constructor
  · exact resolveFamily_consistent.2.1 emptyDB [("doe family", 7)] doeRowLower 7
      (by decide)
  · exact resolveFamily_consistent.2.2.2.1 emptyDB [] doeRow (by decide)
      (by decide)

/-- The conflict key of a membership row: `(group_id, user_id)`. -/
def memKey (m : GroupMembership) : Nat × Nat := (m.groupId, m.userId)

theorem any_memKey (ms : List GroupMembership) (gid uid : Nat) :
    (ms.any fun mem => mem.groupId == gid && mem.userId == uid) = true ↔
      (gid, uid) ∈ ms.map memKey := by
  simp only [List.any_eq_true, Bool.and_eq_true, beq_iff_eq, List.mem_map,
    memKey, Prod.mk.injEq]

theorem memKey_upsertFn (gid uid : Nat) (mem : GroupMembership) :
    memKey (if mem.groupId == gid && mem.userId == uid then
      { mem with status := "pending", role := "member" } else mem) =
      memKey mem := by
  split <;> rfl

theorem upsertMembership_keys (ms : List GroupMembership) (gid uid : Nat) :
    (upsertMembership ms gid uid).map memKey =
      if (gid, uid) ∈ ms.map memKey then ms.map memKey
      else ms.map memKey ++ [(gid, uid)] := by
  unfold upsertMembership
  by_cases h : (ms.any fun mem => mem.groupId == gid && mem.userId == uid) = true
  · rw [if_pos h, if_pos ((any_memKey ms gid uid).1 h), List.map_map]
    exact List.map_congr_left fun mem _ => memKey_upsertFn gid uid mem
  · rw [if_neg h, if_neg (fun hc => h ((any_memKey ms gid uid).2 hc))]
    simp [memKey]

theorem mem_upsertMembership_keys (ms : List GroupMembership) (gid uid : Nat)
    (p : Nat × Nat) :
    p ∈ (upsertMembership ms gid uid).map memKey ↔
      p ∈ ms.map memKey ∨ p = (gid, uid) := by
  rw [upsertMembership_keys]
  split
  case isTrue h =>
    constructor
    · exact Or.inl
    · rintro (hp | rfl)
      · exact hp
      · exact h
  case isFalse h => simp

theorem upsertMembership_nodup (ms : List GroupMembership) (gid uid : Nat)
    (h : (ms.map memKey).Nodup) :
    ((upsertMembership ms gid uid).map memKey).Nodup := by
  rw [upsertMembership_keys]
  split
  case isTrue _ => exact h
  case isFalse hn => simp [List.nodup_append, h, hn]

/-- The upserted key holds a `pending`/`member` row afterwards. -/
theorem upsertMembership_pending (ms : List GroupMembership) (gid uid : Nat) :
    ∃ mem ∈ upsertMembership ms gid uid,
      memKey mem = (gid, uid) ∧ mem.status = "pending" ∧
        mem.role = "member" := by
  unfold upsertMembership
  by_cases h : (ms.any fun mem => mem.groupId == gid && mem.userId == uid) = true
  · rw [if_pos h]
    obtain ⟨mem, hmem, hkey⟩ := List.any_eq_true.1 h
    refine ⟨{ mem with status := "pending", role := "member" }, ?_, ?_, rfl, rfl⟩
    · have := List.mem_map_of_mem (fun mem =>
        if mem.groupId == gid && mem.userId == uid then
          { mem with status := "pending", role := "member" } else mem) hmem
      simpa [hkey] using this
    · simp only [Bool.and_eq_true, beq_iff_eq] at hkey
      simp [memKey, hkey.1, hkey.2]
  · rw [if_neg h]
    exact ⟨⟨gid, uid, "pending", "member"⟩,
      List.mem_append_right _ (List.mem_singleton.2 rfl), rfl, rfl, rfl⟩

/-- A `pending`/`member` row at some key survives any further upsert. -/
theorem upsertMembership_preserves_pending (ms : List GroupMembership)
    (gid uid gid' uid' : Nat)
    (h : ∃ mem ∈ ms, memKey mem = (gid, uid) ∧ mem.status = "pending" ∧
      mem.role = "member") :
    ∃ mem ∈ upsertMembership ms gid' uid',
      memKey mem = (gid, uid) ∧ mem.status = "pending" ∧
        mem.role = "member" := by
  obtain ⟨mem, hmem, hkey, hs, hr⟩ := h
  unfold upsertMembership
  by_cases hany :
      (ms.any fun m => m.groupId == gid' && m.userId == uid') = true
  · rw [if_pos hany]
    by_cases hc : (mem.groupId == gid' && mem.userId == uid') = true
    · refine ⟨{ mem with status := "pending", role := "member" }, ?_, ?_, rfl, rfl⟩
      · have := List.mem_map_of_mem (fun m =>
          if m.groupId == gid' && m.userId == uid' then
            { m with status := "pending", role := "member" } else m) hmem
        simpa [hc] using this
      · exact hkey
    · refine ⟨mem, ?_, hkey, hs, hr⟩
      have := List.mem_map_of_mem (fun m =>
        if m.groupId == gid' && m.userId == uid' then
          { m with status := "pending", role := "member" } else m) hmem
      simpa [hc] using this
  · rw [if_neg hany]
    exact ⟨mem, List.mem_append_left _ hmem, hkey, hs, hr⟩

theorem groupStep_keys (gm : List (String × Nat)) (uid : Nat)
    (ms : List GroupMembership) (name : String) (p : Nat × Nat) :
    p ∈ (groupStep gm uid ms name).map memKey ↔
      p ∈ ms.map memKey ∨
        (getAssoc gm name = some p.1 ∧ p.2 = uid) := by
  unfold groupStep
  cases hg : getAssoc gm name with
  | none => simp
  | some gid =>
      rw [mem_upsertMembership_keys]
      constructor
      · rintro (h | rfl)
        · exact Or.inl h
        · exact Or.inr ⟨rfl, rfl⟩
      · rintro (h | ⟨h1, h2⟩)
        · exact Or.inl h
        · injection h1 with h1
          right
          rw [h1, ← h2]

theorem foldl_groupStep_keys (gm : List (String × Nat)) (uid : Nat) :
    ∀ (names : List String) (ms : List GroupMembership) (p : Nat × Nat),
      p ∈ ((names.foldl (groupStep gm uid) ms).map memKey) ↔
        p ∈ ms.map memKey ∨
          ∃ name ∈ names, getAssoc gm name = some p.1 ∧ p.2 = uid
  | [], ms, p => by simp
  | n :: rest, ms, p => by
      rw [List.foldl_cons,
        foldl_groupStep_keys gm uid rest (groupStep gm uid ms n) p,
        groupStep_keys]
      simp only [List.mem_cons, exists_eq_or_imp]
      tauto

theorem groupStep_nodup (gm : List (String × Nat)) (uid : Nat)
    (ms : List GroupMembership) (name : String)
    (h : (ms.map memKey).Nodup) :
    ((groupStep gm uid ms name).map memKey).Nodup := by
  unfold groupStep
  cases getAssoc gm name with
  | none => exact h
  | some gid => exact upsertMembership_nodup ms gid uid h

theorem foldl_groupStep_nodup (gm : List (String × Nat)) (uid : Nat) :
    ∀ (names : List String) (ms : List GroupMembership),
      (ms.map memKey).Nodup →
      (((names.foldl (groupStep gm uid) ms)).map memKey).Nodup
  | [], _, h => h
  | n :: rest, ms, h =>
      foldl_groupStep_nodup gm uid rest (groupStep gm uid ms n)
        (groupStep_nodup gm uid ms n h)

theorem groupStep_preserves_pending (gm : List (String × Nat))
    (uid gid uid' : Nat) (ms : List GroupMembership) (name : String)
    (h : ∃ mem ∈ ms, memKey mem = (gid, uid') ∧ mem.status = "pending" ∧
      mem.role = "member") :
    ∃ mem ∈ groupStep gm uid ms name,
      memKey mem = (gid, uid') ∧ mem.status = "pending" ∧
        mem.role = "member" := by
  unfold groupStep
  cases getAssoc gm name with
  | none => exact h
  | some g => exact upsertMembership_preserves_pending ms gid uid' g uid h

theorem foldl_groupStep_preserves_pending (gm : List (String × Nat))
    (uid gid uid' : Nat) :
    ∀ (names : List String) (ms : List GroupMembership),
      (∃ mem ∈ ms, memKey mem = (gid, uid') ∧ mem.status = "pending" ∧
        mem.role = "member") →
      ∃ mem ∈ names.foldl (groupStep gm uid) ms,
        memKey mem = (gid, uid') ∧ mem.status = "pending" ∧
          mem.role = "member"
  | [], _, h => h
  | n :: rest, ms, h =>
      foldl_groupStep_preserves_pending gm uid gid uid' rest
        (groupStep gm uid ms n)
        (groupStep_preserves_pending gm uid gid uid' ms n h)

theorem foldl_groupStep_pending (gm : List (String × Nat)) (uid : Nat) :
    ∀ (names : List String) (ms : List GroupMembership) (name : String)
      (gid : Nat), name ∈ names → getAssoc gm name = some gid →
      ∃ mem ∈ names.foldl (groupStep gm uid) ms,
        memKey mem = (gid, uid) ∧ mem.status = "pending" ∧
          mem.role = "member"
  | [], _, _, _, hn, _ => absurd hn (List.not_mem_nil _)
  | n :: rest, ms, name, gid, hn, hg => by
      rcases List.mem_cons.1 hn with rfl | hn'
      · rw [List.foldl_cons]
        refine foldl_groupStep_preserves_pending gm uid gid uid rest
          (groupStep gm uid ms name) ?_
        unfold groupStep
        rw [hg]
        exact upsertMembership_pending ms gid uid
      · rw [List.foldl_cons]
        exact foldl_groupStep_pending gm uid rest (groupStep gm uid ms n)
          name gid hn' hg

theorem foldl_groupStep_unmatched (gm : List (String × Nat)) (uid : Nat) :
    ∀ (names : List String) (ms : List GroupMembership),
      (∀ name ∈ names, getAssoc gm name = none) →
      names.foldl (groupStep gm uid) ms = ms
  | [], _, _ => rfl
  | n :: rest, ms, h => by
      rw [List.foldl_cons]
      have hstep : groupStep gm uid ms n = ms := by
        unfold groupStep
        rw [h n (List.mem_cons_self n rest)]
      rw [hstep]
      exact foldl_groupStep_unmatched gm uid rest ms
        (fun name hn => h name (List.mem_cons_of_mem n hn))

theorem count_one_of_nodup_mem {α : Type} [BEq α] [LawfulBEq α] :
    ∀ (l : List α) (a : α), l.Nodup → a ∈ l → l.count a = 1
  | [], a, _, hm => absurd hm (List.not_mem_nil a)
  | b :: l, a, h, hm => by
      rcases List.mem_cons.1 hm with rfl | hm'
      · rw [List.count_cons_self,
          List.count_eq_zero.2 (List.nodup_cons.1 h).1]
      · rw [List.count_cons_of_ne, count_one_of_nodup_mem l a
          (List.nodup_cons.1 h).2 hm']
        rintro rfl
        exact (List.nodup_cons.1 h).1 hm'

theorem processRow_errors (dateOk : String → Bool) (gm : List (String × Nat))
    (st : RunState) (i : Nat) (row : ExcelRow)
    (h : validateRow dateOk row (i + 2) = none) :
    (processRow dateOk gm st i row).errors = st.errors := by
  unfold processRow
  rw [h]
  rfl

/-- Claim C8: for a processed row with resolved user `uid`, splitting
`groupMemberships` on commas and trimming and lower-casing each name:
(1) the conflict keys `(group_id, user_id)` present after the membership
block are exactly the old ones plus `(gid, uid)` for each parsed name bound
to `gid` in the pre-loaded group map; (2) each matched name leaves a
membership row at its key with status `pending` and role `member`; (3) if
the key set was duplicate-free it stays duplicate-free — repeated rows for
the same (group, member) pair upsert instead of duplicating — and with (2)
the matched key is present exactly once; (4) an absent `groupMemberships`
cell and (5) a cell none of whose names match leave the membership table
unchanged; and (6) the membership block of a valid row appends no error
entry (the run's error list is untouched by the whole success path). -/
theorem applyGroups_upsert_spec :
    (∀ (ms : List GroupMembership) (gm : List (String × Nat)) (uid : Nat)
      (s : String) (p : Nat × Nat),
      p ∈ (applyGroups ms gm uid (some s)).map memKey ↔
        p ∈ ms.map memKey ∨
          ∃ name ∈ parseGroupNames s, getAssoc gm name = some p.1 ∧
            p.2 = uid) ∧
    (∀ (ms : List GroupMembership) (gm : List (String × Nat)) (uid : Nat)
      (s : String) (name : String) (gid : Nat),
      name ∈ parseGroupNames s → getAssoc gm name = some gid →
      ∃ mem ∈ applyGroups ms gm uid (some s),
        memKey mem = (gid, uid) ∧ mem.status = "pending" ∧
          mem.role = "member") ∧
    (∀ (ms : List GroupMembership) (gm : List (String × Nat)) (uid : Nat)
      (g : Option String), (ms.map memKey).Nodup →
      ((applyGroups ms gm uid g).map memKey).Nodup) ∧
    (∀ (ms : List GroupMembership) (gm : List (String × Nat)) (uid : Nat)
      (s : String) (name : String) (gid : Nat), (ms.map memKey).Nodup →
      name ∈ parseGroupNames s → getAssoc gm name = some gid →
      ((applyGroups ms gm uid (some s)).map memKey).count (gid, uid) = 1) ∧
    (∀ (ms : List GroupMembership) (gm : List (String × Nat)) (uid : Nat),
      applyGroups ms gm uid none = ms) ∧
    (∀ (ms : List GroupMembership) (gm : List (String × Nat)) (uid : Nat)
      (s : String), (∀ name ∈ parseGroupNames s, getAssoc gm name = none) →
      applyGroups ms gm uid (some s) = ms) ∧
    (∀ (dateOk : String → Bool) (gm : List (String × Nat)) (st : RunState)
      (i : Nat) (row : ExcelRow), validateRow dateOk row (i + 2) = none →
      (processRow dateOk gm st i row).errors = st.errors) := by
  refine ⟨?_, ?_, ?_, ?_, ?_, ?_, processRow_errors⟩
  · intro ms gm uid s p
    exact foldl_groupStep_keys gm uid (parseGroupNames s) ms p
  · intro ms gm uid s name gid hn hg
    exact foldl_groupStep_pending gm uid (parseGroupNames s) ms name gid hn hg
  · intro ms gm uid g h
    cases g with
    | none => exact h
    | some s => exact foldl_groupStep_nodup gm uid (parseGroupNames s) ms h
  · intro ms gm uid s name gid hnd hn hg
    obtain ⟨mem, hmem, hkey, _, _⟩ :=
      foldl_groupStep_pending gm uid (parseGroupNames s) ms name gid hn hg
    refine count_one_of_nodup_mem _ _
      (foldl_groupStep_nodup gm uid (parseGroupNames s) ms hnd) ?_
    rw [← hkey]
    exact List.mem_map_of_mem memKey hmem
  · intro ms gm uid
    rfl
  · intro ms gm uid s h
    exact foldl_groupStep_unmatched gm uid (parseGroupNames s) ms h

/-- Witness for `applyGroups_upsert_spec`: with only "Choir" pre-loaded,
the row cell "Choir, Youth Group" for user 9 yields a `pending`/`member`
membership for Choir and the key appears exactly once; unmatched cells
leave the table unchanged. -/
theorem applyGroups_upsert_spec_witness :
    (∃ mem ∈ applyGroups [] [("choir", 5)] 9 (some "Choir, Youth Group"),
      memKey mem = (5, 9) ∧ mem.status = "pending" ∧ mem.role = "member") ∧
    ((applyGroups [] [("choir", 5)] 9
      (some "Choir, Youth Group")).map memKey).count (5, 9) = 1 ∧
    applyGroups [] [("choir", 5)] 9 (some "Nursery") = [] := by
  refine ⟨?_, ?_, ?_⟩
  · exact applyGroups_upsert_spec.2.1 [] [("choir", 5)] 9 "Choir, Youth Group"
      "choir" 5 (by decide) (by decide)
  · exact applyGroups_upsert_spec.2.2.2.1 [] [("choir", 5)] 9
      "Choir, Youth Group" "choir" 5 (by decide) (by decide) (by decide)
  · exact applyGroups_upsert_spec.2.2.2.2.2.1 [] [("choir", 5)] 9 "Nursery"
      (by decide)

/-- The part of a `user_profiles` row the duplicate-handling update never
touches: the id and the email. -/
def memCore (x : Member) : Nat × Option String := (x.id, x.email)

theorem resolveFamily_members (db : DB) (m : List (String × Nat))
    (row : ExcelRow) : (resolveFamily db m row).2.1.members = db.members := by
  cases hkey : getAssoc m (jsToLower row.familyName) with
  | some fid => simp [resolveFamily, hkey]
  | none =>
      cases hfam : findFamilyIlike db.families row.familyName with
      | some f => simp [resolveFamily, hkey, hfam]
      | none => simp [resolveFamily, hkey, hfam]

theorem memCore_famUpd (uid fid : Nat) (x : Member) :
    memCore (if x.id = uid then { x with familyId := some fid } else x) =
      memCore x := by
  by_cases h : x.id = uid <;> simp [memCore, h]

theorem memCore_updateMember (row : ExcelRow) (uid : Nat) (x : Member) :
    memCore (if x.id = uid then updateMember x row else x) = memCore x := by
  by_cases h : x.id = uid <;> simp [memCore, updateMember, h]

theorem resolveMember_hit (db : DB) (row : ExcelRow) (m : Member)
    (h : db.members.filter (userMatches row) = [m]) :
    (resolveMember db row).1 = m.id ∧
    (resolveMember db row).2.members =
      db.members.map (fun x => if x.id = m.id then updateMember x row
        else x) := by
  unfold resolveMember
  rw [h]
  exact ⟨rfl, rfl⟩

theorem resolveMember_update_frame_aux (db : DB) (row : ExcelRow) (m : Member)
    (h : db.members.filter (userMatches row) = [m]) :
    (resolveMember db row).2.members.map memCore = db.members.map memCore := by
  obtain ⟨_, h2⟩ := resolveMember_hit db row m h
  rw [h2, List.map_map]
  exact List.map_congr_left fun x _ => memCore_updateMember row m.id x

/-- Claim C9: when member resolution finds exactly one existing profile
matching the row's email or phone, (1) the in-place update writes exactly
the mutable profile columns — first/last name, phone, date of birth,
gender, blood group, address, emergency contact name and phone, role — and
leaves id, email and family linkage as they were (the family linkage is
then written by the separate `family_id` update later in the row);
(2) the resolution returns the matched profile's id and rewrites the member
table in place, so no profile is inserted; and (3) across the row's whole
success path the member table keeps exactly the same ids and emails (in
particular the matched Member's email is never changed and the table gains
no row). -/
theorem resolveMember_update_frame :
    (∀ (m : Member) (row : ExcelRow),
      (updateMember m row).id = m.id ∧
      (updateMember m row).email = m.email ∧
      (updateMember m row).familyId = m.familyId ∧
      (updateMember m row).firstName = row.firstName ∧
      (updateMember m row).lastName = row.lastName ∧
      (updateMember m row).phone = row.phone ∧
      (updateMember m row).dateOfBirth = row.dateOfBirth ∧
      (updateMember m row).gender = row.gender ∧
      (updateMember m row).bloodGroup = row.bloodGroup ∧
      (updateMember m row).address = row.address ∧
      (updateMember m row).emergencyContactName = row.emergencyContactName ∧
      (updateMember m row).emergencyContactPhone = row.emergencyContactPhone ∧
      (updateMember m row).role = row.role) ∧
    (∀ (db : DB) (row : ExcelRow) (m : Member),
      db.members.filter (userMatches row) = [m] →
      (resolveMember db row).1 = m.id ∧
      (resolveMember db row).2.members.length = db.members.length ∧
      (resolveMember db row).2.members.map memCore =
        db.members.map memCore) ∧
    (∀ (dateOk : String → Bool) (gm : List (String × Nat)) (st : RunState)
      (i : Nat) (row : ExcelRow) (m : Member),
      validateRow dateOk row (i + 2) = none →
      st.db.members.filter (userMatches row) = [m] →
      (processRow dateOk gm st i row).db.members.map memCore =
        st.db.members.map memCore) := by
  refine ⟨?_, ?_, ?_⟩
  · intro m row
    exact ⟨rfl, rfl, rfl, rfl, rfl, rfl, rfl, rfl, rfl, rfl, rfl, rfl, rfl⟩
  · intro db row m h
    obtain ⟨h1, h2⟩ := resolveMember_hit db row m h
    have hcore : (resolveMember db row).2.members.map memCore =
        db.members.map memCore := by
      rw [h2, List.map_map]
      exact List.map_congr_left fun x _ => memCore_updateMember row m.id x
    refine ⟨h1, ?_, hcore⟩
    have := congrArg List.length hcore
    simpa using this
  · intro dateOk gm st i row m hval hfilter
    unfold processRow
    rw [hval]
    unfold processValidRow
    dsimp only
    rw [apply_ite DB.members]
    dsimp only
    rw [ite_self, List.map_map]
    have hmm : (resolveFamily (resolveMember st.db row).2 st.familyMap
        row).2.1.members = (resolveMember st.db row).2.members :=
      resolveFamily_members (resolveMember st.db row).2 st.familyMap row
    rw [hmm]
    have hstep : ((resolveMember st.db row).2.members.map
        (memCore ∘ fun (x : Member) =>
          if x.id = (resolveMember st.db row).1 then
            { x with familyId := some (resolveFamily (resolveMember st.db
              row).2 st.familyMap row).1 } else x)) =
        (resolveMember st.db row).2.members.map memCore :=
      List.map_congr_left fun x _ => memCore_famUpd _ _ x
    rw [hstep]
    exact ((resolveMember_update_frame_aux st.db row m hfilter))

/-- An existing profile matching `doeRow` by email. -/
def johnMember : Member :=
  { id := 3
    email := some "john@mail.com"
    firstName := "Jon"
    lastName := "D"
    phone := "5550000000"
    dateOfBirth := none
    gender := none
    bloodGroup := none
    address := none
    emergencyContactName := none
    emergencyContactPhone := none
    role := Role.member
    familyId := some 8 }

/-- A storage holding exactly `johnMember`. -/
def johnDB : DB :=
  { members := [johnMember], families := [], groups := [], memberships := []
    nextId := 9 }

/-- Witness for `resolveMember_update_frame`: processing `doeRow` against a
storage whose only profile matches it by email keeps the member table's ids
and emails exactly as they were (no insert, no email change). -/
theorem resolveMember_update_frame_witness :
    (processRow (fun _ => true) []
        { db := johnDB, familyMap := [], errors := [], processedCount := 0,
          successCount := 0, writes := [] } 0 doeRow).db.members.map memCore =
      johnDB.members.map memCore := by
  exact resolveMember_update_frame.2.2 (fun _ => true) []
    { db := johnDB, familyMap := [], errors := [], processedCount := 0,
      successCount := 0, writes := [] } 0 doeRow johnMember (by decide)
    (by decide)
